import Mathlib

/-!
Verification of the Agora multisig wallet client (Nockchain m-of-n multisig
coordinator).  The definitions below are a shallow embedding of the relevant
TypeScript source files:

* `src/client/src/utils/wasm-utils.ts` — coin selection
  (`selectNotesForAmount`), spend-transaction building
  (`buildUnsignedMultisigSpendTx`), gRPC-client caching (`getGrpcClient`);
* `src/client/src/utils/tx-lifecycle.ts` — bounded acceptance polling
  (`checkTransactionAcceptance`);
* `src/client/src/components/PendingProposals.tsx` and the revised variant of
  the same component shipped in the repository (`src/unnamed/part_006`) —
  the proposal broadcast flow (`handleBroadcast`);
* `src/client/src/components/TransactionProposal.tsx` — proposal creation and
  the threshold-1 direct-spend path (`handleBuildTransaction`);
* the coordination server's signature store (`proposal_signatures` table of
  `src/server/migrations/001_initial.sql` together with the `signProposal`
  endpoint).

External WASM/crypto primitives (lock-root derivation, signature merging,
validation, the gRPC oracle) are modelled as function parameters: the claims
under study are about the control flow of the client around those calls, not
about the primitives themselves.  Amounts are integers in nicks, exactly as
the source manipulates them.
-/

deriving instance DecidableEq for Except

namespace Agora

/-! ## Coin selector

`selectNotesForAmount` from `src/client/src/utils/wasm-utils.ts` (lines
346–367).  The source copies the input (`[...notes]`), sorts the copy by
`assets` descending with JavaScript's stable `Array.prototype.sort`, then
accumulates notes in order until the running total reaches the target,
returning `null` if the list is exhausted first.  A note is modelled by its
`assets` amount (nicks) plus an opaque `tag` standing for the remaining
per-note payload, so that distinct notes of equal amount stay
distinguishable. -/

structure SelNote where
  assets : Nat
  tag : Nat
deriving DecidableEq, Repr

/-- Stable insertion step for descending order: the incoming note (which is
earlier in the input) is placed before the first note whose amount does not
exceed it, exactly the order produced by a stable sort with comparator
`(a, b) => b.assets - a.assets`. -/
def insertDesc (n : SelNote) : List SelNote → List SelNote
  | [] => [n]
  | m :: ms => if m.assets ≤ n.assets then n :: m :: ms else m :: insertDesc n ms

/-- Model of `[...notes].sort((a, b) => b.assets - a.assets)`: the unique
stable descending reordering of the input. -/
def sortByAssetsDesc (l : List SelNote) : List SelNote :=
  l.foldr insertDesc []

def sumAssets (l : List SelNote) : Nat :=
  (l.map SelNote.assets).sum

/-- The accumulation loop of `selectNotesForAmount`: push each note, add its
amount to the running total, and return the accumulated list as soon as the
total reaches the target. -/
def selectGo (target : Nat) : List SelNote → List SelNote → Nat → Option (List SelNote)
  | [], _, _ => none
  | n :: rest, selected, total =>
      if target ≤ total + n.assets then some (selected ++ [n])
      else selectGo target rest (selected ++ [n]) (total + n.assets)

def selectNotesForAmount (notes : List SelNote) (target : Nat) : Option (List SelNote) :=
  selectGo target (sortByAssetsDesc notes) [] 0

/-- A call to `selectNotesForAmount` seen from the caller: the source spreads
the input into a fresh array before sorting, so the caller's array is left
with its original contents; the pair returns (result, caller's array after
the call). -/
def selectNotesForAmountCall (callerArray : List SelNote) (target : Nat) :
    Option (List SelNote) × List SelNote :=
  let sortedCopy := sortByAssetsDesc callerArray
  (selectGo target sortedCopy [] 0, callerArray)

/-- Concrete notes used by witnesses. -/
def demoNotes : List SelNote := [⟨2, 0⟩, ⟨5, 1⟩, ⟨3, 2⟩]

/-! ## Bounded acceptance polling

`checkTransactionAcceptance` from `src/client/src/utils/tx-lifecycle.ts`
(lines 58–92).  The per-attempt oracle models one
`grpcClient.transactionAccepted(txId)` call: `.ok b` is a normal response,
`.error ()` is a thrown network error (the source logs it and keeps
polling).  The function returns `(accepted, number of polls performed)`;
exhausting the attempt cap makes the source throw its `errorMessage`, which
is modelled by an `accepted = false` outcome. -/

def checkAccLoop (oracle : Nat → Except Unit Bool) : Nat → Nat → Bool × Nat
  | attempt, 0 => (false, attempt)
  | attempt, fuel + 1 =>
      match oracle attempt with
      | .ok true => (true, attempt + 1)
      | _ => checkAccLoop oracle (attempt + 1) fuel

def checkTransactionAcceptance (oracle : Nat → Except Unit Bool)
    (maxAttempts : Nat) : Bool × Nat :=
  checkAccLoop oracle 0 maxAttempts

/-- `ACCEPTANCE_CHECK_MAX_ATTEMPTS` of `tx-lifecycle.ts`. -/
def ACCEPTANCE_CHECK_MAX_ATTEMPTS : Nat := 10

/-! ## Proposal broadcast flows

Two `handleBroadcast` implementations ship in the repository:

* `handleBroadcastTsx` embeds `src/client/src/components/PendingProposals.tsx`
  (lines 142–202): merge the stored signatures, send, poll acceptance with
  the proposal's stored `tx_id`, then `markProposalBroadcast(proposalId, pkh)`
  with no final transaction id;
* `handleBroadcast006` embeds the revised component in
  `src/unnamed/part_006` (lines 182–322): normalize each stored signature
  onto the unsigned base transaction, merge, recompute the canonical id with
  `recalcId()` (falling back to the merged transaction's own id), validate
  via `validateSignedTransaction` before sending, poll acceptance with the
  recomputed id inside a try/catch so a timeout is not fatal, and record
  `markProposalBroadcast(proposalId, pkh, finalTxId)`.

The WASM merge/recalc/validate primitives and the gRPC send/accept oracle are
parameters; the traces record the externally visible calls in order. -/

structure SignatureEntry where
  signerPkh : String
  signedTxJson : String
deriving DecidableEq, Repr

structure ProposalDetail where
  txId : String
  threshold : Nat
  rawTxJson : String
  notesJson : String
  spendConditionsJson : String
  signatures : List SignatureEntry
deriving DecidableEq, Repr

structure MergedTx where
  idValue : String
  payload : String
deriving DecidableEq, Repr

inductive BEv
  | mergedOk
  | validated (ok : Bool)
  | sent
  | acceptChecked (txId : String) (accepted : Bool)
  | markedBroadcast (finalTxId : Option String)
  | errorSet (msg : String)
deriving DecidableEq, Repr

def acceptanceTimeoutMsg : String :=
  "Transaction was not accepted into mempool. It may have been rejected or there may be a network issue."

def insufficientSigsMsg (got need : Nat) : String :=
  "Not enough signatures: " ++ toString got ++ "/" ++ toString need

def handleBroadcastTsx (p : ProposalDetail)
    (merge : List String → Nat → Except String MergedTx)
    (send : String → Except String Unit)
    (oracle : String → Nat → Except Unit Bool) : List BEv :=
  if p.signatures.length < p.threshold then
    [.errorSet (insufficientSigsMsg p.signatures.length p.threshold)]
  else
    match merge (p.signatures.map SignatureEntry.signedTxJson) p.threshold with
    | .error e => [.errorSet e]
    | .ok mtx =>
        match send mtx.payload with
        | .error e => [.mergedOk, .errorSet e]
        | .ok _ =>
            if (checkTransactionAcceptance (oracle p.txId) ACCEPTANCE_CHECK_MAX_ATTEMPTS).1 then
              [.mergedOk, .sent, .acceptChecked p.txId true, .markedBroadcast none]
            else
              [.mergedOk, .sent, .acceptChecked p.txId false, .errorSet acceptanceTimeoutMsg]

/-- The final-id computation of `part_006` lines 246–262: prefer a non-null
`recalcId()` result; on a null result or a thrown error fall back to the
merged transaction's own id (which `mergeSignatures` computed from the merged
content). -/
def recalcToFinalId (recalc : MergedTx → Except Unit (Option String))
    (mtx : MergedTx) : String :=
  match recalc mtx with
  | .ok (some v) => v
  | .ok none => mtx.idValue
  | .error _ => mtx.idValue

def handleBroadcast006 (p : ProposalDetail)
    (normalizeForMerge : String → String → String)
    (merge : List String → Nat → Except String MergedTx)
    (recalc : MergedTx → Except Unit (Option String))
    (validate : String → Except String Unit)
    (send : String → Except String Unit)
    (oracle : String → Nat → Except Unit Bool) : List BEv :=
  if p.signatures.length < p.threshold then
    [.errorSet (insufficientSigsMsg p.signatures.length p.threshold)]
  else
    match merge (p.signatures.map (fun s => normalizeForMerge p.rawTxJson s.signedTxJson))
        p.threshold with
    | .error e => [.errorSet ("Failed to merge signatures: " ++ e)]
    | .ok mtx =>
        let finalTxId := recalcToFinalId recalc mtx
        match validate mtx.payload with
        | .error e =>
            [.mergedOk, .validated false, .errorSet ("Transaction validation failed: " ++ e)]
        | .ok _ =>
            match send mtx.payload with
            | .error e =>
                [.mergedOk, .validated true, .errorSet ("Failed to send transaction: " ++ e)]
            | .ok _ =>
                [.mergedOk, .validated true, .sent,
                 .acceptChecked finalTxId
                   (checkTransactionAcceptance (oracle finalTxId)
                     ACCEPTANCE_CHECK_MAX_ATTEMPTS).1,
                 .markedBroadcast (some finalTxId)]

/-- A ready 1-of-n proposal used in the concrete broadcast scenarios. -/
def demoProposal : ProposalDetail :=
  { txId := "preTx", threshold := 1, rawTxJson := "rawTx",
    notesJson := "notes", spendConditionsJson := "conds",
    signatures := [⟨"signerA", "sigA"⟩] }

/-- A 2-of-n proposal with only one collected signature. -/
def demoPendingProposal : ProposalDetail :=
  { txId := "preTx", threshold := 2, rawTxJson := "rawTx",
    notesJson := "notes", spendConditionsJson := "conds",
    signatures := [⟨"signerA", "sigA"⟩] }

def demoMergedTx : MergedTx := ⟨"mergedId", "mergedPayload"⟩

def demoMerge : List String → Nat → Except String MergedTx :=
  fun _ _ => .ok demoMergedTx

def demoRecalc : MergedTx → Except Unit (Option String) :=
  fun _ => .ok (some "recalcId")

def demoValidateOk : String → Except String Unit := fun _ => .ok ()

def demoSendOk : String → Except String Unit := fun _ => .ok ()

def demoNormalize : String → String → String := fun _ s => s

def oracleAlwaysTrue : String → Nat → Except Unit Bool := fun _ _ => .ok true

def oracleAlwaysFalse : String → Nat → Except Unit Bool := fun _ _ => .ok false

/-! ## Spend-transaction building

`buildUnsignedMultisigSpendTx` from `src/client/src/utils/wasm-utils.ts`
(lines 454–816), up to the construction of the WASM `TxBuilder`.  The
argument-validation stage is embedded faithfully in source order: empty note
list, empty valid-seed list, empty participant list, the conservative
fee-estimate funds check, and then the per-note lock-root verification
against the locally re-derived root.  Everything from `new wasm.TxBuilder`
onwards is collapsed into the `rest` parameter; the event list records
whether a builder was ever constructed (the function performs no network
calls at all, and `BuildEv.networkCall` is never emitted).  The WASM
derivation `buildMultisigSpendCondition(threshold, participants).firstName()`
is the `derive` parameter. -/

structure SpendNoteInput where
  assets : Nat
  nameFirst : Option String
deriving DecidableEq, Repr

/-- A requested output; the source's `amountNock * 65536` (floored) is
carried directly in nicks. -/
structure SeedInput where
  destination : String
  amountNicks : Nat
deriving DecidableEq, Repr

inductive BuildEv
  | builderConstructed
  | networkCall
deriving DecidableEq, Repr

inductive BuildErr
  | noNotesSelected
  | noValidSeeds
  | noParticipants
  | insufficientFunds
  | spendConditionMismatch (i : Nat)
  | restFailed (msg : String)
deriving DecidableEq, Repr

/-- JS truthiness of `destination.trim()`: true exactly when the string
contains a non-whitespace character. -/
def destinationPresent (s : String) : Bool :=
  s.toList.any (fun c => !c.isWhitespace)

/-- `seeds.filter(s => s.destination.trim() && s.amountNock > 0)`. -/
def validSeedsOf (seeds : List SeedInput) : List SeedInput :=
  seeds.filter (fun s => destinationPresent s.destination && decide (0 < s.amountNicks))

def totalAssets (notes : List SpendNoteInput) : Nat :=
  (notes.map SpendNoteInput.assets).sum

def totalSeedNicks (seeds : List SeedInput) : Nat :=
  (seeds.map SeedInput.amountNicks).sum

/-- The conservative multisig fee estimate of lines 492–495. -/
def estimatedMultisigFeeNicks (numParticipants numNotes : Nat) : Nat :=
  max (32768 * (10 + numParticipants * 15 + numNotes * 5)) (65536 * 20)

/-- The JS guard `noteInfo.nameFirst && noteInfo.nameFirst !== expectedLockRoot`:
an absent or empty recorded lock root is falsy and skips the check. -/
def noteMismatches (expected : String) (n : SpendNoteInput) : Bool :=
  match n.nameFirst with
  | some v => v != "" && v != expected
  | none => false

/-- Index of the first note failing the lock-root verification loop of
lines 518–527. -/
def findMismatchIdx (expected : String) : List SpendNoteInput → Option Nat
  | [] => none
  | n :: rest =>
      if noteMismatches expected n then some 0
      else (findMismatchIdx expected rest).map (· + 1)

def buildUnsignedMultisigSpendTx (derive : Nat → List String → String)
    (threshold : Nat) (participants : List String)
    (selectedNotes : List SpendNoteInput) (seeds : List SeedInput)
    (rest : Except String Unit) : List BuildEv × Except BuildErr Unit :=
  if selectedNotes.length = 0 then ([], .error .noNotesSelected)
  else if (validSeedsOf seeds).length = 0 then ([], .error .noValidSeeds)
  else if participants.length = 0 then ([], .error .noParticipants)
  else if totalAssets selectedNotes <
      totalSeedNicks (validSeedsOf seeds)
        + estimatedMultisigFeeNicks participants.length selectedNotes.length then
    ([], .error .insufficientFunds)
  else
    match findMismatchIdx (derive threshold participants) selectedNotes with
    | some i => ([], .error (.spendConditionMismatch i))
    | none =>
        match rest with
        | .error m => ([.builderConstructed], .error (.restFailed m))
        | .ok _ => ([.builderConstructed], .ok ())

/-- `true` exactly when the build outcome is the spend-condition-mismatch
error. -/
def resultIsMismatch : List BuildEv × Except BuildErr Unit → Bool
  | (_, .error (.spendConditionMismatch _)) => true
  | _ => false

def deriveDemo : Nat → List String → String := fun _ _ => "rootA"

/-- A note recorded under a different lock root, too small to pass the funds
estimate. -/
def mismatchNotePoor : SpendNoteInput := ⟨0, some "rootB"⟩

/-- A note recorded under a different lock root, large enough to pass the
funds estimate. -/
def mismatchNoteRich : SpendNoteInput := ⟨2000000, some "rootB"⟩

def demoSeedInput : SeedInput := ⟨"dest", 65536⟩

/-! ## Proposal creation and the direct-spend path

`handleBuildTransaction` from
`src/client/src/components/TransactionProposal.tsx` (lines 160–346).  After
the guards, the transaction is built and signed; with `threshold = 1` the
signed fragment is validated, broadcast, acceptance-polled (first with the
validation's signed id, then with the builder's id as fallback) and recorded
through the `directSpend` history endpoint; with `threshold > 1` a proposal
is created via `createProposal` and nothing is broadcast.  Build, signing
oracle, validation, send, acceptance and the proposal-creation API are
parameters; the trace records the externally visible steps in order. -/

structure UnsignedTxR where
  txId : String
  payload : String
deriving DecidableEq, Repr

inductive TEv
  | built (txId : String)
  | signedTx
  | validated (ok : Bool)
  | sent
  | acceptChecked (txId : String) (accepted : Bool)
  | directSpendRecorded (txId : String)
  | proposalCreated (txId : String)
  | errorSet (msg : String)
deriving DecidableEq, Repr

def handleBuildTransaction (pkh grpcEndpoint : Option String)
    (threshold : Nat) (participants : List String)
    (selectedCount : Nat) (seeds : List SeedInput)
    (build : Except String UnsignedTxR)
    (sign : Except String String)
    (validate : String → Except String (Option String))
    (send : String → Except String Unit)
    (oracle : String → Nat → Except Unit Bool)
    (propose : Except String Unit) : List TEv :=
  match pkh with
  | none => [.errorSet "Wallet not connected"]
  | some pl =>
      if selectedCount = 0 then
        [.errorSet "Please select at least one note to spend"]
      else if (validSeedsOf seeds).length = 0 then
        [.errorSet "Please add at least one recipient with a valid amount"]
      else if participants.length = 0 then
        [.errorSet "Multisig participants not available"]
      else if pl ∉ participants then
        [.errorSet "Your wallet is not a participant in this multisig"]
      else
        match build with
        | .error e => [.errorSet e]
        | .ok utx =>
            match sign with
            | .error e => [.built utx.txId, .errorSet e]
            | .ok signedPayload =>
                if threshold = 1 then
                  match grpcEndpoint with
                  | none => [.built utx.txId, .signedTx,
                      .errorSet "gRPC endpoint not configured"]
                  | some _ =>
                      match validate signedPayload with
                      | .error e => [.built utx.txId, .signedTx, .validated false,
                          .errorSet ("Transaction validation failed: " ++ e)]
                      | .ok sid =>
                          match send signedPayload with
                          | .error e => [.built utx.txId, .signedTx, .validated true,
                              .errorSet ("Failed to send transaction: " ++ e)]
                          | .ok _ =>
                              if (checkTransactionAcceptance
                                  (oracle (sid.getD utx.txId)) 5).1 then
                                [.built utx.txId, .signedTx, .validated true, .sent,
                                 .acceptChecked (sid.getD utx.txId) true,
                                 .directSpendRecorded (sid.getD utx.txId)]
                              else if (checkTransactionAcceptance (oracle utx.txId)
                                  ACCEPTANCE_CHECK_MAX_ATTEMPTS).1 then
                                [.built utx.txId, .signedTx, .validated true, .sent,
                                 .acceptChecked (sid.getD utx.txId) false,
                                 .acceptChecked utx.txId true,
                                 .directSpendRecorded (sid.getD utx.txId)]
                              else
                                [.built utx.txId, .signedTx, .validated true, .sent,
                                 .acceptChecked (sid.getD utx.txId) false,
                                 .acceptChecked utx.txId false,
                                 .errorSet "Transaction was not accepted. The note may have already been spent."]
                else
                  match propose with
                  | .error e => [.built utx.txId, .signedTx, .errorSet e]
                  | .ok _ => [.built utx.txId, .signedTx, .proposalCreated utx.txId]

def demoUnsignedTx : UnsignedTxR := ⟨"builtTx", "builtPayload"⟩

def demoValidateId : String → Except String (Option String) :=
  fun _ => .ok (some "signedId")

def demoPropose : Except String Unit := .ok ()

/-! ## Per-endpoint gRPC-client cache

`getGrpcClient` from `src/client/src/utils/wasm-utils.ts` (lines 31–54, the
same code appears in `src/unnamed/part_007`).  The module keeps two maps:
`grpcClients` (endpoint → constructed client) and `grpcClientPromises`
(endpoint → in-flight construction promise).  JavaScript's single-threaded
event loop makes the synchronous prefix of a call — the two cache look-ups
and the recording of a freshly started construction promise — atomic, and
the construction body (`await ensureWasmInitialized(); new GrpcClient(...)`)
resumes later as a separate task.  The state machine below therefore has one
atomic step per such unit:

* `call e`: a `getGrpcClient(e)` invocation — return the cached client if
  present, else the cached in-flight (or failed) promise, else start a
  construction and cache its promise;
* `resumeOk e`: an in-flight construction body resumes and succeeds — the
  `GrpcClient` constructor runs, the client is stored in `grpcClients` and
  the promise entry is deleted;
* `resumeFail e`: an in-flight construction attempt throws — the promise
  rejects, and since the source deletes the promise entry only on success,
  the rejected promise stays cached (`promises e = some false`).

Clients are numbered by a global counter so distinct constructions have
distinct identities.  `starts` and `constructs` count, per endpoint, the
construction starts and the construction-body runs; `rets` records
`(endpoint, client)` for every call answered from the client cache. -/

inductive GOp
  | call (e : String)
  | resumeOk (e : String)
  | resumeFail (e : String)
deriving DecidableEq, Repr

structure GState where
  clients : String → Option Nat
  promises : String → Option Bool
  nextId : Nat
  starts : String → Nat
  constructs : String → Nat
  rets : List (String × Nat)

def updMap {α : Type} (f : String → α) (e : String) (v : α) : String → α :=
  fun x => if x = e then v else f x

def GState.start : GState :=
  { clients := fun _ => none, promises := fun _ => none, nextId := 0,
    starts := fun _ => 0, constructs := fun _ => 0, rets := [] }

def gstep (s : GState) : GOp → GState
  | .call e =>
      match s.clients e with
      | some c => { s with rets := (e, c) :: s.rets }
      | none =>
          match s.promises e with
          | some _ => s
          | none =>
              { s with promises := updMap s.promises e (some true),
                       starts := updMap s.starts e (s.starts e + 1) }
  | .resumeOk e =>
      if s.promises e = some true then
        { s with clients := updMap s.clients e (some s.nextId),
                 promises := updMap s.promises e none,
                 nextId := s.nextId + 1,
                 constructs := updMap s.constructs e (s.constructs e + 1) }
      else s
  | .resumeFail e =>
      if s.promises e = some true then
        { s with promises := updMap s.promises e (some false),
                 constructs := updMap s.constructs e (s.constructs e + 1) }
      else s

def grun (ops : List GOp) : GState :=
  ops.foldl gstep GState.start

/-- The state invariant of the cache: at most one construction ever starts
per endpoint, the construction body runs at most as often as a construction
starts, a start has happened exactly when a promise or client is cached, a
pending promise and a cached client never coexist, a pending promise means
the constructor has not yet run, and every recorded return came from the
client cache. -/
def GInv (s : GState) : Prop :=
  ∀ e, s.starts e ≤ 1
    ∧ s.constructs e ≤ s.starts e
    ∧ (1 ≤ s.starts e ↔ (s.promises e ≠ none ∨ s.clients e ≠ none))
    ∧ ¬(s.promises e = some true ∧ s.clients e ≠ none)
    ∧ (s.promises e = some true → s.constructs e = 0)
    ∧ (∀ c, (e, c) ∈ s.rets → s.clients e = some c)

/-- A concrete operation sequence: two overlapping calls for endpoint `a`,
a successful construction, two more calls, and a call for endpoint `b`. -/
def demoOps : List GOp :=
  [.call "a", .call "a", .resumeOk "a", .call "a", .call "b", .call "a"]

/-! ## Signature collection store

Modelled from the spec: the server-side handler behind
`POST /api/proposals/:id/sign` is not part of the source snapshot — only its
caller `apiClient.signProposal` (`src/unnamed/part_001`, lines 134–148) and
the schema are.  Per the spec, signature collection is an idempotent upsert
keyed by signer identity with last-write-wins semantics ("the set of
collected SignedFragments keyed by signer identity (at most one fragment per
signer, last-write-wins)"; "idempotent upsert keyed by signer identity").
The `proposal_signatures` table of `src/server/migrations/001_initial.sql`
(lines 47–57) enforces the key uniqueness with
`PRIMARY KEY (proposal_id, signer_pkh)`.  A store is an association list
from keys — `(proposal id, signer pkh)` pairs — to the stored
`signed_tx_json`; upsert replaces the (unique) existing row for the key or
inserts a new one. -/

def upsertSignature {κ : Type} [DecidableEq κ] :
    List (κ × String) → κ → String → List (κ × String)
  | [], k, v => [(k, v)]
  | p :: rest, k, v =>
      if p.1 = k then (k, v) :: rest else p :: upsertSignature rest k v

/-- Apply a sequence of signature submissions (in arrival order) to an empty
store. -/
def runSubmissions {κ : Type} [DecidableEq κ]
    (subs : List (κ × String)) : List (κ × String) :=
  subs.foldl (fun acc p => upsertSignature acc p.1 p.2) []

/-- The stored fragment for a key: the first matching row. -/
def findSig {κ : Type} [DecidableEq κ] (k : κ) : List (κ × String) → Option String
  | [] => none
  | p :: rest => if p.1 = k then some p.2 else findSig k rest

/-- The last value submitted for a key within a submission sequence. -/
def lastSubmitted {κ : Type} [DecidableEq κ] (k : κ) :
    List (κ × String) → Option String
  | [] => none
  | p :: rest =>
      match lastSubmitted k rest with
      | some w => some w
      | none => if p.1 = k then some p.2 else none

/-! ## Lemmas about the coin selector -/

theorem insertDesc_perm (n : SelNote) (l : List SelNote) :
    List.Perm (insertDesc n l) (n :: l) := by
  induction l with
  | nil => simp [insertDesc]
  | cons m ms ih =>
      by_cases h : m.assets ≤ n.assets
      · simp [insertDesc, h]
      · simp only [insertDesc, if_neg h]
        exact (ih.cons m).trans (List.Perm.swap n m ms)

theorem sortByAssetsDesc_perm (l : List SelNote) :
    List.Perm (sortByAssetsDesc l) l := by
  induction l with
  | nil => simp [sortByAssetsDesc]
  | cons x xs ih =>
      have h1 : List.Perm (insertDesc x (sortByAssetsDesc xs)) (x :: sortByAssetsDesc xs) :=
        insertDesc_perm x (sortByAssetsDesc xs)
      exact h1.trans (ih.cons x)

theorem mem_insertDesc {x n : SelNote} {l : List SelNote}
    (h : x ∈ insertDesc n l) : x = n ∨ x ∈ l := by
  have := (insertDesc_perm n l).mem_iff.mp h
  simpa using this

theorem insertDesc_pairwise {n : SelNote} {l : List SelNote}
    (h : List.Pairwise (fun a b => b.assets ≤ a.assets) l) :
    List.Pairwise (fun a b => b.assets ≤ a.assets) (insertDesc n l) := by
  induction l with
  | nil => simp [insertDesc]
  | cons m ms ih =>
      rcases List.pairwise_cons.mp h with ⟨hm, hms⟩
      by_cases hc : m.assets ≤ n.assets
      · simp only [insertDesc, if_pos hc]
        refine List.pairwise_cons.mpr ⟨?_, List.pairwise_cons.mpr ⟨hm, hms⟩⟩
        intro x hx
        rcases List.mem_cons.mp hx with hx | hx
        · simpa [hx] using hc
        · exact le_trans (hm x hx) hc
      · simp only [insertDesc, if_neg hc]
        refine List.pairwise_cons.mpr ⟨?_, ih hms⟩
        intro x hx
        rcases mem_insertDesc hx with hx | hx
        · subst hx; omega
        · exact hm x hx

theorem sortByAssetsDesc_pairwise (l : List SelNote) :
    List.Pairwise (fun a b => b.assets ≤ a.assets) (sortByAssetsDesc l) := by
  induction l with
  | nil => simp [sortByAssetsDesc]
  | cons x xs ih => exact insertDesc_pairwise ih

theorem sumAssets_eq_of_perm {l1 l2 : List SelNote} (h : List.Perm l1 l2) :
    sumAssets l1 = sumAssets l2 :=
  (h.map SelNote.assets).sum_eq

theorem selectGo_eq_none_iff (target : Nat) (l : List SelNote) :
    ∀ selected total, total < target →
      (selectGo target l selected total = none ↔ total + sumAssets l < target) := by
  induction l with
  | nil =>
      intro selected total htot
      simp [selectGo, sumAssets]
      omega
  | cons n rest ih =>
      intro selected total htot
      by_cases h : target ≤ total + n.assets
      · simp only [selectGo, if_pos h, sumAssets, List.map_cons, List.sum_cons]
        constructor
        · intro hco; cases hco
        · intro hlt; omega
      · simp only [selectGo, if_neg h, sumAssets, List.map_cons, List.sum_cons]
        have hlt : total + n.assets < target := by omega
        have := ih (selected ++ [n]) (total + n.assets) hlt
        simp only [sumAssets] at this
        rw [this]
        omega

theorem selectGo_eq_some (target : Nat) (l : List SelNote) :
    ∀ selected total sel, total < target →
      selectGo target l selected total = some sel →
      ∃ p t, l = p ++ t ∧ p ≠ [] ∧ sel = selected ++ p ∧
        target ≤ total + sumAssets p ∧ total + sumAssets p.dropLast < target := by
  induction l with
  | nil => intro selected total sel _ hco; cases hco
  | cons n rest ih =>
      intro selected total sel htot hsel
      by_cases h : target ≤ total + n.assets
      · simp only [selectGo, if_pos h, Option.some.injEq] at hsel
        refine ⟨[n], rest, rfl, by simp, hsel.symm, ?_, ?_⟩
        · simpa [sumAssets] using h
        · simpa [sumAssets] using htot
      · simp only [selectGo, if_neg h] at hsel
        have hlt : total + n.assets < target := by omega
        rcases ih (selected ++ [n]) (total + n.assets) sel hlt hsel with
          ⟨p', t', hrest, hpne, hselp, hsum, hdrop⟩
        refine ⟨n :: p', t', by simp [hrest], by simp, by simp [hselp], ?_, ?_⟩
        · simp only [sumAssets, List.map_cons, List.sum_cons]
          simp only [sumAssets] at hsum
          omega
        · rw [List.dropLast_cons_of_ne_nil hpne]
          simp only [sumAssets, List.map_cons, List.sum_cons]
          simp only [sumAssets] at hdrop
          omega

/-! ## Claim C2 -/

/-- C2 (amended): for every target of at least one nick,
`selectNotesForAmount` performs greedy largest-first selection over the
stably-descending-sorted notes: a successful result is a non-empty prefix of
the sorted list whose total reaches the target while the total without its
last element does not, and the failure value `none` is returned exactly when
the sum of all candidate notes is below the target.  (At `target = 0` the
source still returns `null` on an empty list and still selects one note on a
non-empty list, which is what forces the `1 ≤ target` restriction.) -/
theorem c2_select_greedy_amended (notes : List SelNote) (target : Nat)
    (htgt : 1 ≤ target) :
    (selectNotesForAmount notes target = none ↔ sumAssets notes < target)
    ∧ (∀ sel, selectNotesForAmount notes target = some sel →
        (∃ t, sortByAssetsDesc notes = sel ++ t)
        ∧ sel ≠ []
        ∧ target ≤ sumAssets sel
        ∧ sumAssets sel.dropLast < target)
    ∧ List.Pairwise (fun a b => b.assets ≤ a.assets) (sortByAssetsDesc notes)
    ∧ List.Perm (sortByAssetsDesc notes) notes := by
  have htot : 0 < target := htgt
  refine ⟨?_, ?_, sortByAssetsDesc_pairwise notes, sortByAssetsDesc_perm notes⟩
  · have h := selectGo_eq_none_iff target (sortByAssetsDesc notes) [] 0 htot
    rw [selectNotesForAmount, h,
      sumAssets_eq_of_perm (sortByAssetsDesc_perm notes)]
    omega
  · intro sel hsel
    rcases selectGo_eq_some target (sortByAssetsDesc notes) [] 0 sel htot hsel with
      ⟨p, t, hsplit, hpne, hselp, hsum, hdrop⟩
    simp only [List.nil_append] at hselp
    subst hselp
    exact ⟨⟨t, hsplit⟩, hpne, by omega, by omega⟩

/-- C2 counterexample: as literally stated the claim fails at the empty note
list with target `0`: the source returns `null` even though the sum of all
candidate notes (`0`) is not below the target. -/
theorem c2_select_counterexample :
    selectNotesForAmount [] 0 = none ∧ ¬ sumAssets ([] : List SelNote) < 0 := by
  decide

/-- C2 witness: the amended theorem applied at a concrete input. -/
theorem c2_select_witness :
    1 ≤ 6
    ∧ (selectNotesForAmount demoNotes 6 = none ↔ sumAssets demoNotes < 6)
    ∧ selectNotesForAmount demoNotes 6 = some [⟨5, 1⟩, ⟨3, 2⟩] :=
  ⟨by decide, (c2_select_greedy_amended demoNotes 6 (by decide)).1, by decide⟩

/-! ## Claim C10 -/

/-- C10: `selectNotesForAmount` does not mutate its input: the caller's array
after a call has exactly its original contents (the source sorts a spread
copy), the returned result is the same as the pure function of the input, and
a successful selection consists of elements drawn from the input (it is a
sub-permutation of the input list). -/
theorem c10_select_no_mutation (notes : List SelNote) (target : Nat) :
    (selectNotesForAmountCall notes target).2 = notes
    ∧ (selectNotesForAmountCall notes target).1 = selectNotesForAmount notes target
    ∧ ∀ sel, (selectNotesForAmountCall notes target).1 = some sel →
        List.Subperm sel notes := by
  refine ⟨rfl, rfl, ?_⟩
  intro sel hsel
  by_cases htot : 0 < target
  · rcases selectGo_eq_some target (sortByAssetsDesc notes) [] 0 sel htot hsel with
      ⟨p, t, hsplit, _, hselp, _, _⟩
    simp only [List.nil_append] at hselp
    subst hselp
    have hsub : List.Sublist sel (sortByAssetsDesc notes) := by
      rw [hsplit]; exact List.sublist_append_left sel t
    exact hsub.subperm.trans (sortByAssetsDesc_perm notes).subperm
  · -- target = 0: the loop stops at the first note (if any)
    have htz : target = 0 := by omega
    subst htz
    cases hs : sortByAssetsDesc notes with
    | nil =>
        rw [selectNotesForAmountCall] at hsel
        simp only [hs, selectGo] at hsel
        cases hsel
    | cons n rest =>
        rw [selectNotesForAmountCall] at hsel
        simp only [hs, selectGo, Nat.zero_add, Nat.zero_le, if_pos,
          List.nil_append, Option.some.injEq] at hsel
        have hmem : n ∈ notes :=
          (sortByAssetsDesc_perm notes).mem_iff.mp (by simp [hs])
        subst hsel
        exact (List.singleton_sublist.mpr hmem).subperm

/-! ## Claim C1 -/

/-- C1 (code bug): in the broadcast flow of
`src/client/src/components/PendingProposals.tsx` the identifier handed to
acceptance polling is the proposal's stored pre-merge `tx_id` and the
broadcast record carries no final transaction id, even though the canonical
identifier recomputed from the merged content (`recalcId()`, as the revised
`part_006` flow obtains it) differs from the pre-merge id.  This contradicts
the claim/spec rule that only the recomputed identifier may be used for
polling and history recording. -/
theorem c1_tsx_broadcast_uses_premerge_id :
    handleBroadcastTsx demoProposal demoMerge demoSendOk oracleAlwaysTrue =
      [.mergedOk, .sent, .acceptChecked "preTx" true, .markedBroadcast none]
    ∧ recalcToFinalId demoRecalc demoMergedTx = "recalcId"
    ∧ ("preTx" : String) ≠ "recalcId" := by
  refine ⟨by decide, rfl, by decide⟩

/-! ## Claim C3 -/

/-- C3: with fewer collected signatures than the threshold, both shipped
broadcast flows stop at the guard: the produced trace is exactly the
insufficient-signatures error, so `mergeSignatures` is never invoked, nothing
is sent to the broadcast oracle, and the proposal is never marked broadcast
(its state is unchanged). -/
theorem c3_insufficient_signatures_rejected (p : ProposalDetail)
    (merge : List String → Nat → Except String MergedTx)
    (send : String → Except String Unit)
    (oracle : String → Nat → Except Unit Bool)
    (normalizeForMerge : String → String → String)
    (recalc : MergedTx → Except Unit (Option String))
    (validate : String → Except String Unit)
    (h : p.signatures.length < p.threshold) :
    handleBroadcastTsx p merge send oracle =
      [.errorSet (insufficientSigsMsg p.signatures.length p.threshold)]
    ∧ handleBroadcast006 p normalizeForMerge merge recalc validate send oracle =
      [.errorSet (insufficientSigsMsg p.signatures.length p.threshold)] := by
  constructor
  · simp [handleBroadcastTsx, h]
  · simp [handleBroadcast006, h]

/-- C3 witness: one signature collected against a threshold of two. -/
theorem c3_witness :
    demoPendingProposal.signatures.length < demoPendingProposal.threshold
    ∧ handleBroadcastTsx demoPendingProposal demoMerge demoSendOk oracleAlwaysTrue =
        [.errorSet (insufficientSigsMsg demoPendingProposal.signatures.length
          demoPendingProposal.threshold)] :=
  ⟨by decide,
   (c3_insufficient_signatures_rejected demoPendingProposal demoMerge demoSendOk
     oracleAlwaysTrue demoNormalize demoRecalc demoValidateOk (by decide)).1⟩

/-! ## Claim C4 -/

/-- C4 (code bug): the multi-party broadcast path of
`src/client/src/components/PendingProposals.tsx` sends the merged transaction
to the broadcast oracle without ever invoking the Validation Gate — its trace
contains `sent` but no `validated` event at all.  (The revised `part_006`
flow does run the gate and refuses to send on a validation failure, as the
last conjunct shows.) -/
theorem c4_tsx_broadcast_skips_validation :
    BEv.sent ∈ handleBroadcastTsx demoProposal demoMerge demoSendOk oracleAlwaysTrue
    ∧ BEv.validated true ∉ handleBroadcastTsx demoProposal demoMerge demoSendOk oracleAlwaysTrue
    ∧ BEv.validated false ∉ handleBroadcastTsx demoProposal demoMerge demoSendOk oracleAlwaysTrue
    ∧ handleBroadcast006 demoProposal demoNormalize demoMerge demoRecalc
        (fun _ => .error "invalid") demoSendOk oracleAlwaysTrue =
        [.mergedOk, .validated false, .errorSet "Transaction validation failed: invalid"] := by
  refine ⟨by decide, by decide, by decide, by decide⟩

/-! ## Claim C6 -/

/-- C6 (code bug): acceptance checking is indeed a bounded poll — with an
oracle that never confirms, the default configuration performs exactly
`ACCEPTANCE_CHECK_MAX_ATTEMPTS = 10` polls and gives up — but in the
`PendingProposals.tsx` flow the resulting timeout exception is fatal: the
already-sent transaction is surfaced as a failure (`errorSet`) and
`markProposalBroadcast` is never reached, contradicting the claim.  The
revised `part_006` flow conforms: it still marks the proposal broadcast with
the final id after the unconfirmed poll. -/
theorem c6_timeout_fatal_in_tsx_flow :
    checkTransactionAcceptance (oracleAlwaysFalse "preTx") ACCEPTANCE_CHECK_MAX_ATTEMPTS
      = (false, 10)
    ∧ handleBroadcastTsx demoProposal demoMerge demoSendOk oracleAlwaysFalse =
        [.mergedOk, .sent, .acceptChecked "preTx" false, .errorSet acceptanceTimeoutMsg]
    ∧ handleBroadcast006 demoProposal demoNormalize demoMerge demoRecalc demoValidateOk
        demoSendOk oracleAlwaysFalse =
        [.mergedOk, .validated true, .sent, .acceptChecked "recalcId" false,
         .markedBroadcast (some "recalcId")] := by
  refine ⟨by decide, by decide, by decide⟩

/-! ## Lemmas about the lock-root verification loop -/

theorem findMismatchIdx_eq_none {expected : String} {l : List SpendNoteInput}
    (h : findMismatchIdx expected l = none) :
    ∀ n ∈ l, noteMismatches expected n = false := by
  induction l with
  | nil => intro n hn; cases hn
  | cons m ms ih =>
      intro n hn
      by_cases hm : noteMismatches expected m
      · simp [findMismatchIdx, hm] at h
      · cases hms : findMismatchIdx expected ms with
        | some j => simp [findMismatchIdx, hm, hms] at h
        | none =>
            rcases List.mem_cons.mp hn with rfl | hn
            · simpa using hm
            · exact ih hms n hn

/-! ## Claim C5 -/

/-- C5 (amended): when any supplied input note carries a recorded lock root
(`nameFirst`) that differs from the root locally re-derived from
`(threshold, participants)`, the build always fails — no `TxBuilder` is ever
constructed and no network call is made (the function performs none) — and
whenever the argument/funds pre-checks that precede the lock-root loop pass,
the error is specifically the spend-condition mismatch.  (If an earlier
pre-check fires, e.g. the conservative funds estimate, its error is thrown
instead of the mismatch error, which is the only deviation from the claim as
stated; the build still never proceeds to spend the note.) -/
theorem c5_mismatch_blocks_spend (derive : Nat → List String → String)
    (threshold : Nat) (participants : List String)
    (selectedNotes : List SpendNoteInput) (seeds : List SeedInput)
    (rest : Except String Unit)
    (h : ∃ n ∈ selectedNotes, noteMismatches (derive threshold participants) n = true) :
    (∃ e, (buildUnsignedMultisigSpendTx derive threshold participants selectedNotes seeds rest).2
        = .error e)
    ∧ BuildEv.builderConstructed ∉
        (buildUnsignedMultisigSpendTx derive threshold participants selectedNotes seeds rest).1
    ∧ BuildEv.networkCall ∉
        (buildUnsignedMultisigSpendTx derive threshold participants selectedNotes seeds rest).1
    ∧ (selectedNotes.length ≠ 0 → (validSeedsOf seeds).length ≠ 0 →
        participants.length ≠ 0 →
        totalSeedNicks (validSeedsOf seeds)
          + estimatedMultisigFeeNicks participants.length selectedNotes.length
          ≤ totalAssets selectedNotes →
        ∃ i, (buildUnsignedMultisigSpendTx derive threshold participants selectedNotes seeds rest).2
          = .error (.spendConditionMismatch i)) := by
  have hfind : findMismatchIdx (derive threshold participants) selectedNotes ≠ none := by
    intro hnone
    rcases h with ⟨n, hn, hmis⟩
    have hfalse := findMismatchIdx_eq_none hnone n hn
    rw [hmis] at hfalse
    cases hfalse
  unfold buildUnsignedMultisigSpendTx
  split_ifs with h1 h2 h3 h4
  · exact ⟨⟨_, rfl⟩, by simp, by simp, fun hc _ _ _ => absurd h1 hc⟩
  · exact ⟨⟨_, rfl⟩, by simp, by simp, fun _ hc _ _ => absurd h2 hc⟩
  · exact ⟨⟨_, rfl⟩, by simp, by simp, fun _ _ hc _ => absurd h3 hc⟩
  · exact ⟨⟨_, rfl⟩, by simp, by simp, fun _ _ _ hc => by omega⟩
  · cases hf : findMismatchIdx (derive threshold participants) selectedNotes with
    | none => exact absurd hf hfind
    | some i =>
        simp only [hf]
        exact ⟨⟨_, rfl⟩, by simp, by simp, fun _ _ _ _ => ⟨i, rfl⟩⟩

/-- C5 counterexample: a mismatched note that also fails the earlier funds
estimate makes the build throw the insufficient-funds error, not the
spend-condition-mismatch error the claim promises — the mismatch is present
but a different error fires first. -/
theorem c5_counterexample :
    noteMismatches (deriveDemo 1 ["p1"]) mismatchNotePoor = true
    ∧ (buildUnsignedMultisigSpendTx deriveDemo 1 ["p1"] [mismatchNotePoor]
        [demoSeedInput] (.ok ())).2 = .error .insufficientFunds
    ∧ resultIsMismatch (buildUnsignedMultisigSpendTx deriveDemo 1 ["p1"]
        [mismatchNotePoor] [demoSeedInput] (.ok ())) = false := by
  refine ⟨by decide, by decide, by decide⟩

/-- C5 witness: the amended theorem applied to a well-funded mismatched
note. -/
theorem c5_witness :
    (∃ n ∈ [mismatchNoteRich], noteMismatches (deriveDemo 1 ["p1"]) n = true)
    ∧ (∃ e, (buildUnsignedMultisigSpendTx deriveDemo 1 ["p1"] [mismatchNoteRich]
        [demoSeedInput] (.ok ())).2 = .error e)
    ∧ BuildEv.builderConstructed ∉
        (buildUnsignedMultisigSpendTx deriveDemo 1 ["p1"] [mismatchNoteRich]
          [demoSeedInput] (.ok ())).1
    ∧ (∃ i, (buildUnsignedMultisigSpendTx deriveDemo 1 ["p1"] [mismatchNoteRich]
        [demoSeedInput] (.ok ())).2 = .error (.spendConditionMismatch i)) := by
  have hmem : ∃ n ∈ [mismatchNoteRich],
      noteMismatches (deriveDemo 1 ["p1"]) n = true :=
    ⟨mismatchNoteRich, by decide, by decide⟩
  have h := c5_mismatch_blocks_spend deriveDemo 1 ["p1"] [mismatchNoteRich]
    [demoSeedInput] (.ok ()) hmem
  exact ⟨hmem, h.1, h.2.1, h.2.2.2 (by decide) (by decide) (by decide) (by decide)⟩

/-! ## Claim C7 -/

/-- C7: with `threshold = 1`, `handleBuildTransaction` never creates a
proposal on any path; with `threshold ≠ 1` it never sends anything to the
broadcast oracle and never records a direct spend.  On the successful
threshold-1 path the signed fragment is validated, sent, acceptance-checked
and recorded through the `directSpend` endpoint, in that order; on the
successful multi-party path the proposal is created and nothing is
broadcast. -/
theorem c7_threshold_branching (pkh grpcEndpoint : Option String)
    (threshold : Nat) (participants : List String)
    (selectedCount : Nat) (seeds : List SeedInput)
    (build : Except String UnsignedTxR) (sign : Except String String)
    (validate : String → Except String (Option String))
    (send : String → Except String Unit)
    (oracle : String → Nat → Except Unit Bool)
    (propose : Except String Unit) :
    (threshold = 1 → ∀ id, TEv.proposalCreated id ∉
        handleBuildTransaction pkh grpcEndpoint threshold participants selectedCount seeds
          build sign validate send oracle propose)
    ∧ (threshold ≠ 1 →
        TEv.sent ∉ handleBuildTransaction pkh grpcEndpoint threshold participants
          selectedCount seeds build sign validate send oracle propose
        ∧ ∀ id, TEv.directSpendRecorded id ∉
            handleBuildTransaction pkh grpcEndpoint threshold participants selectedCount seeds
              build sign validate send oracle propose)
    ∧ (∀ pl ep utx sp sid, pkh = some pl → grpcEndpoint = some ep → threshold = 1 →
        selectedCount ≠ 0 → (validSeedsOf seeds).length ≠ 0 → participants.length ≠ 0 →
        pl ∈ participants → build = .ok utx → sign = .ok sp → validate sp = .ok sid →
        send sp = .ok () →
        (checkTransactionAcceptance (oracle (sid.getD utx.txId)) 5).1 = true →
        handleBuildTransaction pkh grpcEndpoint threshold participants selectedCount seeds
            build sign validate send oracle propose =
          [.built utx.txId, .signedTx, .validated true, .sent,
           .acceptChecked (sid.getD utx.txId) true,
           .directSpendRecorded (sid.getD utx.txId)])
    ∧ (∀ pl utx sp, pkh = some pl → threshold ≠ 1 → selectedCount ≠ 0 →
        (validSeedsOf seeds).length ≠ 0 → participants.length ≠ 0 → pl ∈ participants →
        build = .ok utx → sign = .ok sp → propose = .ok () →
        handleBuildTransaction pkh grpcEndpoint threshold participants selectedCount seeds
            build sign validate send oracle propose =
          [.built utx.txId, .signedTx, .proposalCreated utx.txId]) := by
  refine ⟨?_, ?_, ?_, ?_⟩
  · intro ht cid
    unfold handleBuildTransaction
    repeat' split
    all_goals simp_all
  · intro ht
    constructor
    · unfold handleBuildTransaction
      repeat' split
      all_goals simp_all
    · intro cid
      unfold handleBuildTransaction
      repeat' split
      all_goals simp_all
  · intro pl ep utx sp sid hpkh hep ht hsc hvs hpart hmem hbuild hsign hval hsend hacc
    subst hpkh; subst hep; subst ht; subst hbuild; subst hsign
    simp only [handleBuildTransaction, if_neg hsc, if_neg hvs, if_neg hpart,
      if_neg (not_not_intro hmem), if_pos rfl, hval, hsend, hacc, if_pos]
  · intro pl utx sp hpkh ht hsc hvs hpart hmem hbuild hsign hprop
    subst hpkh; subst hbuild; subst hsign; subst hprop
    simp only [handleBuildTransaction, if_neg hsc, if_neg hvs, if_neg hpart,
      if_neg (not_not_intro hmem), if_neg ht]

/-- C7 witness: the theorem applied to a concrete 1-of-2 direct spend and a
concrete 2-of-2 proposal creation. -/
theorem c7_witness :
    handleBuildTransaction (some "alice") (some "ep") 1 ["alice", "bob"] 1 [demoSeedInput]
        (.ok demoUnsignedTx) (.ok "signedPayload") demoValidateId demoSendOk
        oracleAlwaysTrue demoPropose =
      [.built "builtTx", .signedTx, .validated true, .sent,
       .acceptChecked "signedId" true, .directSpendRecorded "signedId"]
    ∧ handleBuildTransaction (some "alice") (some "ep") 2 ["alice", "bob"] 1 [demoSeedInput]
        (.ok demoUnsignedTx) (.ok "signedPayload") demoValidateId demoSendOk
        oracleAlwaysTrue demoPropose =
      [.built "builtTx", .signedTx, .proposalCreated "builtTx"] := by
  constructor
  · have h := (c7_threshold_branching (some "alice") (some "ep") 1 ["alice", "bob"] 1
      [demoSeedInput] (.ok demoUnsignedTx) (.ok "signedPayload") demoValidateId demoSendOk
      oracleAlwaysTrue demoPropose).2.2.1 "alice" "ep" demoUnsignedTx "signedPayload"
      (some "signedId") rfl rfl rfl (by decide) (by decide) (by decide) (by decide)
      rfl rfl rfl rfl (by decide)
    simpa using h
  · have h := (c7_threshold_branching (some "alice") (some "ep") 2 ["alice", "bob"] 1
      [demoSeedInput] (.ok demoUnsignedTx) (.ok "signedPayload") demoValidateId demoSendOk
      oracleAlwaysTrue demoPropose).2.2.2 "alice" demoUnsignedTx "signedPayload"
      rfl (by decide) (by decide) (by decide) (by decide) (by decide) rfl rfl rfl
    simpa using h

/-! ## Lemmas about the gRPC-client cache -/

theorem gInv_start : GInv GState.start := by
  intro e
  simp [GState.start]

theorem gInv_gstep {s : GState} (h : GInv s) (op : GOp) : GInv (gstep s op) := by
  cases op with
  | call e =>
      cases hc : s.clients e with
      | some c =>
          intro e'
          rcases h e' with ⟨h1, h2, h3, h4, h5, h6⟩
          simp only [gstep, hc]
          refine ⟨h1, h2, h3, h4, h5, ?_⟩
          intro c' hc'
          rcases List.mem_cons.mp hc' with heq | hmem
          · simp only [Prod.mk.injEq] at heq
            obtain ⟨rfl, rfl⟩ := heq
            exact hc
          · exact h6 c' hmem
      | none =>
          cases hp : s.promises e with
          | some b =>
              intro e'
              simp only [gstep, hc, hp]
              exact h e'
          | none =>
              intro e'
              rcases h e' with ⟨h1, h2, h3, h4, h5, h6⟩
              simp only [gstep, hc, hp]
              by_cases he : e' = e
              · subst he
                have hs0 : s.starts e' = 0 := by
                  by_contra hne
                  have hge : 1 ≤ s.starts e' := by omega
                  rcases h3.mp hge with hcase | hcase
                  · exact hcase hp
                  · exact hcase hc
                have hcon0 : s.constructs e' = 0 := by omega
                refine ⟨?_, ?_, ?_, ?_, ?_, ?_⟩
                · simp [updMap, hs0]
                · simp [updMap, hs0, hcon0]
                · simp [updMap, hs0]
                · simp [hc]
                · intro _; exact hcon0
                · intro c' hc'
                  exact h6 c' hc'
              · simp only [updMap, if_neg he]
                exact ⟨h1, h2, h3, h4, h5, h6⟩
  | resumeOk e =>
      by_cases hpend : s.promises e = some true
      · intro e'
        rcases h e' with ⟨h1, h2, h3, h4, h5, h6⟩
        simp only [gstep, if_pos hpend]
        by_cases he : e' = e
        · subst he
          have hs1 : s.starts e' = 1 := by
            have hge : 1 ≤ s.starts e' := h3.mpr (Or.inl (by simp [hpend]))
            omega
          have hcon0 : s.constructs e' = 0 := h5 hpend
          have hcl : s.clients e' = none := by
            cases hcc : s.clients e' with
            | none => rfl
            | some c => exact absurd ⟨hpend, by simp [hcc]⟩ h4
          refine ⟨?_, ?_, ?_, ?_, ?_, ?_⟩
          · simp [h1]
          · simp [updMap, hs1, hcon0]
          · simp [updMap, hs1]
          · simp [updMap]
          · simp [updMap]
          · intro c' hc'
            exact absurd (h6 c' hc') (by simp [hcl])
        · simp only [updMap, if_neg he]
          exact ⟨h1, h2, h3, h4, h5, h6⟩
      · intro e'
        simp only [gstep, if_neg hpend]
        exact h e'
  | resumeFail e =>
      by_cases hpend : s.promises e = some true
      · intro e'
        rcases h e' with ⟨h1, h2, h3, h4, h5, h6⟩
        simp only [gstep, if_pos hpend]
        by_cases he : e' = e
        · subst he
          have hs1 : s.starts e' = 1 := by
            have hge : 1 ≤ s.starts e' := h3.mpr (Or.inl (by simp [hpend]))
            omega
          have hcon0 : s.constructs e' = 0 := h5 hpend
          refine ⟨?_, ?_, ?_, ?_, ?_, ?_⟩
          · exact h1
          · simp [updMap, hs1, hcon0]
          · simp [updMap, hs1]
          · simp [updMap]
          · simp [updMap]
          · exact h6
        · simp only [updMap, if_neg he]
          exact ⟨h1, h2, h3, h4, h5, h6⟩
      · intro e'
        simp only [gstep, if_neg hpend]
        exact h e'

theorem gInv_foldl (ops : List GOp) :
    ∀ s, GInv s → GInv (ops.foldl gstep s) := by
  induction ops with
  | nil => intro s hs; exact hs
  | cons op rest ih => intro s hs; exact ih _ (gInv_gstep hs op)

theorem gInv_grun (ops : List GOp) : GInv (grun ops) :=
  gInv_foldl ops _ gInv_start

theorem gstep_clients_stable {s : GState} (h : GInv s) {e : String} {c : Nat}
    (hc : s.clients e = some c) (op : GOp) : (gstep s op).clients e = some c := by
  cases op with
  | call e' =>
      cases hcl : s.clients e' with
      | some c' => simp only [gstep, hcl]; exact hc
      | none =>
          cases hp : s.promises e' with
          | some b => simp only [gstep, hcl, hp]; exact hc
          | none => simp only [gstep, hcl, hp]; exact hc
  | resumeOk e' =>
      by_cases hpend : s.promises e' = some true
      · simp only [gstep, if_pos hpend]
        have hne : e ≠ e' := by
          intro hee
          subst hee
          have hcl : s.clients e = none := by
            cases hcc : s.clients e with
            | none => rfl
            | some cx =>
                rcases h e with ⟨_, _, _, h4, _, _⟩
                exact absurd ⟨hpend, by simp [hcc]⟩ h4
          rw [hcl] at hc; cases hc
        simp only [updMap, if_neg hne]
        exact hc
      · simp only [gstep, if_neg hpend]; exact hc
  | resumeFail e' =>
      by_cases hpend : s.promises e' = some true
      · simp only [gstep, if_pos hpend]; exact hc
      · simp only [gstep, if_neg hpend]; exact hc

theorem grun_append_clients (ops ops' : List GOp) {e : String} {c : Nat}
    (hc : (grun ops).clients e = some c) :
    (grun (ops ++ ops')).clients e = some c := by
  rw [grun, List.foldl_append]
  have hgen : ∀ s, GInv s → s.clients e = some c →
      (ops'.foldl gstep s).clients e = some c := by
    induction ops' with
    | nil => intro s _ hcs; exact hcs
    | cons op rest ih =>
        intro s hs hcs
        exact ih _ (gInv_gstep hs op) (gstep_clients_stable hs hcs op)
  exact hgen _ (gInv_grun ops) hc

/-! ## Claim C8 -/

/-- C8: the per-endpoint gRPC-client cache is single-flight: for every
interleaving of calls and construction completions/failures, at most one
construction is ever started per endpoint (so the `GrpcClient` constructor
runs at most once per endpoint, and a second construction is never begun
while one is in flight); a cached client entry, once written, is never
replaced in any extension of the run; and any two calls answered from the
cache for the same endpoint receive the same client. -/
theorem c8_grpc_singleflight (ops : List GOp) (e : String) :
    (grun ops).starts e ≤ 1
    ∧ (grun ops).constructs e ≤ 1
    ∧ (∀ c, (grun ops).clients e = some c →
        ∀ ops', (grun (ops ++ ops')).clients e = some c)
    ∧ (∀ c c', (e, c) ∈ (grun ops).rets → (e, c') ∈ (grun ops).rets → c = c') := by
  rcases gInv_grun ops e with ⟨h1, h2, _, _, _, h6⟩
  refine ⟨h1, le_trans h2 h1, ?_, ?_⟩
  · intro c hc ops'
    exact grun_append_clients ops ops' hc
  · intro c c' hc hc'
    have e1 := h6 c hc
    have e2 := h6 c' hc'
    rw [e1] at e2
    exact Option.some.inj e2

/-- C8 witness: the theorem applied to a concrete interleaving in which two
calls overlap an in-flight construction for endpoint `a`. -/
theorem c8_witness :
    (grun demoOps).starts "a" ≤ 1
    ∧ (grun demoOps).constructs "a" ≤ 1
    ∧ (grun demoOps).clients "a" = some 0
    ∧ (grun (demoOps ++ [.resumeFail "a", .call "a"])).clients "a" = some 0 := by
  refine ⟨(c8_grpc_singleflight demoOps "a").1,
    (c8_grpc_singleflight demoOps "a").2.1, by decide, ?_⟩
  exact (c8_grpc_singleflight demoOps "a").2.2.1 0 (by decide)
    [.resumeFail "a", .call "a"]

/-! ## Lemmas about the signature store -/

theorem findSig_upsert {κ : Type} [DecidableEq κ] (store : List (κ × String))
    (k k' : κ) (v : String) :
    findSig k' (upsertSignature store k v)
      = if k' = k then some v else findSig k' store := by
  induction store with
  | nil =>
      by_cases hk : k' = k
      · simp [upsertSignature, findSig, hk]
      · simp [upsertSignature, findSig, hk, Ne.symm hk]
  | cons p rest ih =>
      by_cases hp : p.1 = k
      · by_cases hk : k' = k
        · simp [upsertSignature, findSig, hp, hk]
        · simp [upsertSignature, findSig, hp, hk, Ne.symm hk]
      · by_cases hk : k' = k
        · subst hk
          simp [upsertSignature, findSig, hp, ih]
        · simp [upsertSignature, findSig, hp, hk, ih]

theorem mem_keys_upsertSignature {κ : Type} [DecidableEq κ]
    {store : List (κ × String)} {k x : κ} {v : String}
    (h : x ∈ (upsertSignature store k v).map Prod.fst) :
    x ∈ store.map Prod.fst ∨ x = k := by
  induction store with
  | nil =>
      right
      simpa [upsertSignature] using h
  | cons p rest ih =>
      by_cases hp : p.1 = k
      · simp only [upsertSignature, if_pos hp, List.map_cons] at h
        rcases List.mem_cons.mp h with rfl | hm
        · exact Or.inr rfl
        · exact Or.inl (by simp only [List.map_cons]; exact List.mem_cons_of_mem _ hm)
      · simp only [upsertSignature, if_neg hp, List.map_cons] at h
        rcases List.mem_cons.mp h with rfl | hm
        · exact Or.inl (by simp)
        · rcases ih hm with hmk | hk
          · exact Or.inl (by simp only [List.map_cons]; exact List.mem_cons_of_mem _ hmk)
          · exact Or.inr hk

theorem keys_nodup_upsertSignature {κ : Type} [DecidableEq κ]
    {store : List (κ × String)} (k : κ) (v : String)
    (h : (store.map Prod.fst).Nodup) :
    ((upsertSignature store k v).map Prod.fst).Nodup := by
  induction store with
  | nil => simp [upsertSignature]
  | cons p rest ih =>
      rw [List.map_cons] at h
      rcases List.nodup_cons.mp h with ⟨hnotin, hrest⟩
      by_cases hp : p.1 = k
      · simp only [upsertSignature, if_pos hp, List.map_cons]
        exact List.nodup_cons.mpr ⟨hp ▸ hnotin, hrest⟩
      · simp only [upsertSignature, if_neg hp, List.map_cons]
        refine List.nodup_cons.mpr ⟨?_, ih hrest⟩
        intro hmem
        rcases mem_keys_upsertSignature hmem with hm | hk
        · exact hnotin hm
        · exact hp hk

theorem runSubmissions_general {κ : Type} [DecidableEq κ] (subs : List (κ × String)) :
    ∀ acc : List (κ × String), (acc.map Prod.fst).Nodup →
      ((subs.foldl (fun a p => upsertSignature a p.1 p.2) acc).map Prod.fst).Nodup
      ∧ ∀ k, findSig k (subs.foldl (fun a p => upsertSignature a p.1 p.2) acc)
          = (lastSubmitted k subs).or (findSig k acc) := by
  induction subs with
  | nil =>
      intro acc hacc
      exact ⟨hacc, fun k => by simp [lastSubmitted]⟩
  | cons p rest ih =>
      intro acc hacc
      have hacc' := keys_nodup_upsertSignature p.1 p.2 hacc
      rcases ih (upsertSignature acc p.1 p.2) hacc' with ⟨hnd, hfind⟩
      refine ⟨by simpa using hnd, ?_⟩
      intro k
      rw [List.foldl_cons, hfind k, findSig_upsert]
      cases hl : lastSubmitted k rest with
      | some w => simp [lastSubmitted, hl]
      | none =>
          by_cases hk : k = p.1
          · subst hk
            simp [lastSubmitted, hl]
          · simp [lastSubmitted, hl, hk, Ne.symm hk]

/-! ## Claim C9 -/

/-- C9 (modelled from the spec, the server handler being outside the source
snapshot): for every submission sequence, the collected signature store holds
at most one row per (proposal, signer) key — the keys of the resulting store
are duplicate-free — and the row stored for a key is exactly the last
fragment submitted for it, so repeated or duplicate submission by the same
signer overwrites rather than duplicates, regardless of the order in which
signers submit. -/
theorem c9_signature_upsert_idempotent
    (subs : List ((String × String) × String)) (k : String × String) :
    ((runSubmissions subs).map Prod.fst).Nodup
    ∧ findSig k (runSubmissions subs) = lastSubmitted k subs := by
  have h := runSubmissions_general subs [] (by simp)
  refine ⟨h.1, ?_⟩
  have h2 := h.2 k
  rw [runSubmissions, h2]
  cases hl : lastSubmitted k subs <;> simp [findSig]

/-- C10 witness: the no-mutation theorem applied at a concrete call. -/
theorem c10_select_witness :
    (selectNotesForAmountCall demoNotes 6).2 = demoNotes
    ∧ (selectNotesForAmountCall demoNotes 6).1 = some [⟨5, 1⟩, ⟨3, 2⟩]
    ∧ List.Subperm [⟨5, 1⟩, ⟨3, 2⟩] demoNotes :=
  ⟨(c10_select_no_mutation demoNotes 6).1, by decide,
   (c10_select_no_mutation demoNotes 6).2.2 [⟨5, 1⟩, ⟨3, 2⟩] (by decide)⟩
